import Mathlib

/-!
Verification of `he-ddns-updater.py` (a single-shot Hurricane Electric
dynamic-DNS updater) against its natural-language specification.

The script is embedded shallowly:

* the Python regex `\b(?:(?:25[0-5]|2[0-4][0-9]|[01]?[0-9][0-9]?)\.){3}
  (?:25[0-5]|2[0-4][0-9]|[01]?[0-9][0-9]?)\b` used by `get_current_ip`
  is embedded as a regex AST `RE` together with a backtracking matcher
  `matchRE` (continuation-passing, ordered alternation, greedy `?`,
  word-boundary assertions) and a `findall` scan mirroring
  `re.findall`'s left-to-right non-overlapping search;
* pure string manipulation (`str.strip`, `str.split(maxsplit=1)[0]`,
  `str.lower`) is embedded on `List Char`;
* the effectful control flow of `main` is embedded as a function from a
  `World` (the responses of the lookup sites, the cache-file state and
  the provider's response) to a `RunResult` recording the exit outcome,
  the ordered list of observable events (network requests, log lines,
  cache writes) and the final cache-file state;
* `pathlib.Path.write_text` (open-for-write, i.e. truncate, then write)
  is embedded with an explicit failure point so that partial writes are
  expressible.
-/

/-! ## Character classes of the source regex -/

/-- Code point of a character (`Char.toNat`), the basis of all the
ASCII class tests below. -/
def charCode (c : Char) : Nat := c.toNat

/-- The class `[0-9]` of the source regex. -/
def isDigitC (c : Char) : Bool := 48 ≤ charCode c && charCode c ≤ 57

/-- The literal `2` of the source regex. -/
def isTwoC (c : Char) : Bool := charCode c = 50

/-- The literal `5` of the source regex. -/
def isFiveC (c : Char) : Bool := charCode c = 53

/-- The class `[0-5]` of the source regex. -/
def isZeroToFiveC (c : Char) : Bool := 48 ≤ charCode c && charCode c ≤ 53

/-- The class `[0-4]` of the source regex. -/
def isZeroToFourC (c : Char) : Bool := 48 ≤ charCode c && charCode c ≤ 52

/-- The class `[01]` of the source regex. -/
def isZeroOrOneC (c : Char) : Bool := charCode c = 48 || charCode c = 49

/-- The escaped literal `\.` of the source regex. -/
def isDotC (c : Char) : Bool := charCode c = 46

/-- Word characters for the `\b` assertion (`[A-Za-z0-9_]`; the ASCII
fragment of Python's `\w`, which is all that the claims exercise). -/
def isWordC (c : Char) : Bool :=
  (48 ≤ charCode c && charCode c ≤ 57) ||
  (65 ≤ charCode c && charCode c ≤ 90) ||
  (97 ≤ charCode c && charCode c ≤ 122) ||
  charCode c = 95

/-! ## Regex AST and backtracking matcher -/

/-- Abstract syntax of the fragment of Python regexes used by the
source pattern: character classes, concatenation, ordered alternation,
greedy option `?`, and the word-boundary assertion `\b`. -/
inductive RE where
  | cls (p : Char → Bool)
  | seq (a b : RE)
  | alt (a b : RE)
  | opt (a : RE)
  | wb
deriving Inhabited

/-- First-success choice on match results (Python's ordered alternation
with backtracking into the continuation). -/
def obar (a : Option (List Char)) (b : Unit → Option (List Char)) :
    Option (List Char) :=
  match a with
  | some r => some r
  | none => b ()

/-- Is the head of `l` a word character (`false` for the empty list,
i.e. the end of the subject)? -/
def headIsWord (l : List Char) : Bool :=
  match l with
  | [] => false
  | c :: _ => isWordC c

/-- Is the previous character a word character (`false` at the start of
the subject)? -/
def prevIsWord (p : Option Char) : Bool :=
  match p with
  | none => false
  | some c => isWordC c

/-- Backtracking matcher in continuation-passing style, mirroring
Python's `re` engine on this fragment: `matchRE r prev l k` tries to
match `r` at the start of `l` (with `prev` the character just before
`l`, for `\b`), and calls the continuation `k` on the remainder; the
first alternative whose continuation succeeds wins, and `?` is greedy.
The result is the final remainder produced by the continuation. -/
def matchRE : RE → Option Char → List Char →
    (Option Char → List Char → Option (List Char)) → Option (List Char)
  | .cls _, _, [], _ => none
  | .cls p, _, c :: rest, k => if p c then k (some c) rest else none
  | .seq a b, prev, l, k =>
      matchRE a prev l (fun p' l' => matchRE b p' l' k)
  | .alt a b, prev, l, k =>
      obar (matchRE a prev l k) (fun _ => matchRE b prev l k)
  | .opt a, prev, l, k =>
      obar (matchRE a prev l k) (fun _ => k prev l)
  | .wb, prev, l, k =>
      if prevIsWord prev != headIsWord l then k prev l else none

/-- One octet of the source pattern:
`25[0-5]|2[0-4][0-9]|[01]?[0-9][0-9]?`, with the source's alternation
order. -/
def octRE : RE :=
  .alt (.seq (.cls isTwoC) (.seq (.cls isFiveC) (.cls isZeroToFiveC)))
    (.alt (.seq (.cls isTwoC) (.seq (.cls isZeroToFourC) (.cls isDigitC)))
      (.seq (.opt (.cls isZeroOrOneC))
        (.seq (.cls isDigitC) (.opt (.cls isDigitC)))))

/-- The group `(?:(?:octet)\.)` of the source pattern. -/
def octDotRE : RE := .seq octRE (.cls isDotC)

/-- The whole source pattern
`\b(?:(?:25[0-5]|2[0-4][0-9]|[01]?[0-9][0-9]?)\.){3}(?:25[0-5]|2[0-4][0-9]|[01]?[0-9][0-9]?)\b`
with the `{3}` repetition unrolled. -/
def ip_pattern : RE :=
  .seq .wb
    (.seq octDotRE
      (.seq octDotRE
        (.seq octDotRE
          (.seq octRE .wb))))

/-- Attempt a match of `r` at the current position: the continuation
accepts whatever remains. Returns the remainder after the match found
by the engine (Python's leftmost-then-backtracking-order match). -/
def matchHere (r : RE) (prev : Option Char) (l : List Char) :
    Option (List Char) :=
  matchRE r prev l (fun _ l' => some l')

/-- Fuel-indexed scan mirroring `re.findall`: at each position try a
match; on success record it and resume after it (advancing one
character on an empty match, as Python does), on failure advance one
character. The fuel only bounds the number of scan steps. -/
def findallFuel : Nat → RE → Option Char → List Char → List (List Char)
  | 0, _, _, _ => []
  | fuel + 1, r, prev, l =>
    match matchHere r prev l with
    | some rest =>
      let consumed := l.length - rest.length
      if consumed = 0 then
        match l with
        | [] => [[]]
        | c :: cs => [] :: findallFuel fuel r (some c) cs
      else
        l.take consumed ::
          findallFuel fuel r (l.take consumed).getLast? (l.drop consumed)
    | none =>
      match l with
      | [] => []
      | c :: cs => findallFuel fuel r (some c) cs

/-- `re.findall(pattern, s)`: all non-overlapping matches of `pattern`
in `s`, left to right. -/
def findall (r : RE) (s : String) : List String :=
  (findallFuel (s.toList.length + 1) r none s.toList).map
    (fun l => String.mk l)

/-! ## Python string helpers used by the script -/

/-- Python `str` whitespace test, ASCII fragment (space, `\t`, `\n`,
`\r`, `\x0b`, `\x0c`), as used by `str.strip()` and `str.split()`. -/
def pyIsSpace (c : Char) : Bool :=
  charCode c = 32 || charCode c = 9 || charCode c = 10 ||
  charCode c = 13 || charCode c = 11 || charCode c = 12

/-- Python `str.strip()` on a character list: drop leading and trailing
whitespace. -/
def pyStripL (l : List Char) : List Char :=
  ((l.dropWhile pyIsSpace).reverse.dropWhile pyIsSpace).reverse

/-- Python `str.strip()` on strings. -/
def pyStrip (s : String) : String := String.mk (pyStripL s.toList)

/-- Python `str.lower()` on one character (ASCII fragment). -/
def pyLowerC (c : Char) : Char :=
  if 65 ≤ charCode c && charCode c ≤ 90 then Char.ofNat (charCode c + 32)
  else c

/-- Python `str.lower()` on a string. -/
def pyLower (s : String) : String := String.mk (s.toList.map pyLowerC)

/-! ## The script's pure parsing function -/

/-- `parse_he_response` of the source:
`response_text.strip().split(maxsplit=1)[0].lower() if response_text
else ""`. On an empty body the conditional yields `""`; on a nonempty
body the first whitespace-delimited token of the stripped body is
lower-cased. A body that is nonempty but strips to nothing makes
`[0]` raise an `IndexError`, embedded as `none`. -/
def parse_he_response (response_text : String) : Option String :=
  if response_text = "" then some ""
  else
    match pyStripL response_text.toList with
    | [] => none
    | c :: cs =>
      some (String.mk (((c :: cs).takeWhile (fun x => !pyIsSpace x)).map pyLowerC))

/-! ## Configuration constants of the script -/

/-- `IP_LOOKUP_SITES` of the source. -/
def IP_LOOKUP_SITES : List String :=
  ["https://4.ifcfg.me/ip", "https://api4.ipify.org",
   "https://ipv4.icanhazip.com"]

/-- `HE_UPDATE_URL` of the source. -/
def HE_UPDATE_URL : String := "https://dyn.dns.he.net/nic/update"

/-- The default placeholder for `HE_DDNS_HOSTNAME`. -/
def HOSTNAME_PLACEHOLDER : String := "< fqdn to update >"

/-- The default placeholder for `HE_DDNS_KEY`. -/
def KEY_PLACEHOLDER : String := "< provided key >"

/-- The credentials after the `os.getenv` lines: hostname and key. -/
structure Config where
  hostname : String
  key : String
deriving DecidableEq

/-! ## World model: HTTP responses, cache file, failure points -/

/-- An HTTP response as the script observes it: status code and body
text. -/
structure HttpResponse where
  status : Nat
  text : String
deriving DecidableEq

/-- `requests.Response.raise_for_status()` raises exactly for 4xx and
5xx status codes. -/
def raiseForStatus (r : HttpResponse) : Bool := 400 ≤ r.status && r.status < 600

/-- State of the cache file (`~/.cache/he-ddns-last-ip`): whether the
parent directory exists, the file's content (`none` = absent), and its
permission bits when set. -/
structure CacheFS where
  parentExists : Bool
  content : Option String
  mode : Option Nat
deriving DecidableEq

/-- Failure point of one `save_cached_ip` call.
`Path.write_text` opens the file for writing — truncating it — and then
writes, so a failure while writing leaves a prefix of the new value:
`failMkdir` fails in `mkdir`, `failOpen` after truncation is the open
failing before the truncation takes effect is impossible, i.e. the
open itself failing leaves the file untouched; `failMidWrite k` fails
after `k` characters have been written; `failChmod` fails in the final
`chmod`; `noFail` is the fully successful call. -/
inductive WriteFailure where
  | noFail
  | failMkdir
  | failOpen
  | failMidWrite (k : Nat)
  | failChmod
deriving DecidableEq

/-- `get_cached_ip` of the source: `none` when the file is absent or
the read raises (both logged paths return `None`); otherwise the
content stripped of surrounding whitespace. -/
def get_cached_ip (fs : CacheFS) (readOk : Bool) : Option String :=
  match fs.content with
  | none => none
  | some s => if readOk then some (pyStrip s) else none

/-- `save_cached_ip` of the source: `mkdir(parents=True, exist_ok=True)`
then `write_text(ip)` then `chmod(0o600)`, all inside one `try` whose
handler only logs a warning. Returns the new file state and whether the
warning was printed. -/
def save_cached_ip (fs : CacheFS) (f : WriteFailure) (ip : String) :
    CacheFS × Bool :=
  match f with
  | .failMkdir => (fs, true)
  | .failOpen => ({ fs with parentExists := true }, true)
  | .failMidWrite k =>
      ({ parentExists := true, content := some (String.mk (ip.toList.take k)),
         mode := fs.mode }, true)
  | .failChmod =>
      ({ parentExists := true, content := some ip, mode := fs.mode }, true)
  | .noFail =>
      ({ parentExists := true, content := some ip, mode := some 0o600 }, false)

/-! ## Observable events of one run -/

/-- Observable events of a run, in program order: network requests,
the `print` calls (tagged by their site in the source; `warn…`/`err…`
go to `sys.stderr`, `info…` to stdout) and the invocation of
`save_cached_ip`. -/
inductive Event where
  | lookupRequest (url : String)
  | warnLookupFailed (url : String)
  | warnNoIp (url : String)
  | warnMultipleIps (url ip : String)
  | errAllLookupsFailed
  | warnCacheRead
  | infoUnchanged (ip : String)
  | infoUpdating (old : Option String) (new : String)
  | updateRequest (url hostname password myip : String)
  | errUpdateTransport
  | infoUpdateSuccess (hostname ip : String)
  | errUpdateRejected (hostname body : String)
  | cacheWrite (ip : String)
  | warnCacheWrite
  | errConfig
deriving DecidableEq

/-- Which events are writes to `sys.stderr` (every `print` with
`file=sys.stderr` in the source). -/
def Event.isStderr : Event → Bool
  | .warnLookupFailed _ => true
  | .warnNoIp _ => true
  | .warnMultipleIps _ _ => true
  | .errAllLookupsFailed => true
  | .warnCacheRead => true
  | .errUpdateTransport => true
  | .errUpdateRejected _ _ => true
  | .warnCacheWrite => true
  | .errConfig => true
  | _ => false

/-- Which events are network requests. -/
def Event.isNetwork : Event → Bool
  | .lookupRequest _ => true
  | .updateRequest _ _ _ _ => true
  | _ => false

/-- Which events are requests to the provider update endpoint. -/
def Event.isUpdateRequest : Event → Bool
  | .updateRequest _ _ _ _ => true
  | _ => false

/-- Which events are invocations of `save_cached_ip`. -/
def Event.isCacheWrite : Event → Bool
  | .cacheWrite _ => true
  | _ => false

/-! ## The script's effectful functions -/

/-- `get_current_ip` of the source, over the list of lookup sites
paired with what each returns (`none` = `requests.get` raised). For
each site in order: on a transport error or a 4xx/5xx status
(`raise_for_status`), warn and continue; otherwise run the IPv4
`re.findall` on the body; no match warns and continues, several
matches warn and take the first, exactly one is returned. Exhausting
the list prints the final error and yields `none`. -/
def get_current_ip (attempts : List (String × Option HttpResponse)) :
    Option String × List Event :=
  match attempts with
  | [] => (none, [Event.errAllLookupsFailed])
  | (site, resp) :: rest =>
    match resp with
    | none =>
      ((get_current_ip rest).1,
       Event.lookupRequest site :: Event.warnLookupFailed site ::
         (get_current_ip rest).2)
    | some resp =>
      if raiseForStatus resp then
        ((get_current_ip rest).1,
         Event.lookupRequest site :: Event.warnLookupFailed site ::
           (get_current_ip rest).2)
      else
        match findall ip_pattern resp.text with
        | [] =>
          ((get_current_ip rest).1,
           Event.lookupRequest site :: Event.warnNoIp site ::
             (get_current_ip rest).2)
        | [ip] => (some ip, [Event.lookupRequest site])
        | ip :: _ :: _ =>
          (some ip, [Event.lookupRequest site, Event.warnMultipleIps site ip])

/-- Result of one `update_dns` call: returned `True`, returned `False`,
or raised an uncaught exception (the `IndexError` of
`parse_he_response`). -/
inductive UpdResult where
  | ok
  | fail
  | crash
deriving DecidableEq

/-- `update_dns` of the source: POST `password`/`hostname`/`myip` to
`HE_UPDATE_URL`; a transport error or `raise_for_status` exception is
caught and reported as failure; otherwise the body's first token is
parsed and the call succeeds exactly when the status is 200 and the
token is `good` or `nochg`. -/
def update_dns (cfg : Config) (ip : String) (resp : Option HttpResponse) :
    UpdResult × List Event :=
  let req := Event.updateRequest HE_UPDATE_URL cfg.hostname cfg.key ip
  match resp with
  | none => (.fail, [req, .errUpdateTransport])
  | some r =>
    if raiseForStatus r then (.fail, [req, .errUpdateTransport])
    else
      match parse_he_response r.text with
      | none => (.crash, [req])
      | some tok =>
        if r.status = 200 && (tok = "good" || tok = "nochg") then
          (.ok, [req, .infoUpdateSuccess cfg.hostname ip])
        else
          (.fail, [req, .errUpdateRejected cfg.hostname r.text])

/-- How one run ends: `sys.exit(code)` / normal return (`exit 0`), or
an uncaught exception. -/
inductive Outcome where
  | exit (code : Nat)
  | crash
deriving DecidableEq

/-- Everything the script does to its environment: responses of the
three lookup sites in order (`none` = transport error), the cache-file
state, whether reading the cache file succeeds, the provider's response
to the update POST (`none` = transport error), and the failure point of
the cache write. -/
structure World where
  lookupResponses : List (Option HttpResponse)
  fs : CacheFS
  cacheReadOk : Bool
  updateResponse : Option HttpResponse
  writeFailure : WriteFailure
deriving DecidableEq

/-- The observable result of one run. -/
structure RunResult where
  outcome : Outcome
  events : List Event
  fs : CacheFS
deriving DecidableEq

/-- `main` of the source: resolve the current IP (exit 1 when falsy),
read the cache, skip the update when unchanged, otherwise call
`update_dns` and persist the new address only on success. -/
def main_run (cfg : Config) (w : World) : RunResult :=
  let res := get_current_ip (IP_LOOKUP_SITES.zip w.lookupResponses)
  match res.1 with
  | none => ⟨.exit 1, res.2, w.fs⟩
  | some cur =>
    if cur = "" then ⟨.exit 1, res.2, w.fs⟩
    else
      let cachedEvs : List Event :=
        if w.fs.content.isSome && !w.cacheReadOk then [.warnCacheRead] else []
      let cached := get_cached_ip w.fs w.cacheReadOk
      if some cur = cached then
        ⟨.exit 0, res.2 ++ cachedEvs ++ [.infoUnchanged cur], w.fs⟩
      else
        let upd := update_dns cfg cur w.updateResponse
        match upd.1 with
        | .ok =>
          let sv := save_cached_ip w.fs w.writeFailure cur
          let wEvs : List Event := if sv.2 then [.warnCacheWrite] else []
          ⟨.exit 0,
           res.2 ++ cachedEvs ++ [.infoUpdating cached cur] ++ upd.2 ++
             [.cacheWrite cur] ++ wEvs,
           sv.1⟩
        | .fail =>
          ⟨.exit 1, res.2 ++ cachedEvs ++ [.infoUpdating cached cur] ++ upd.2,
           w.fs⟩
        | .crash =>
          ⟨.crash, res.2 ++ cachedEvs ++ [.infoUpdating cached cur] ++ upd.2,
           w.fs⟩

/-- Python `s.startswith('<')` for the one-character prefix used by the
validation: the first character is `<`. -/
def startsWithLt (s : String) : Bool :=
  match s.toList with
  | [] => false
  | c :: _ => charCode c = 60

/-- The whole script: the module-level `os.getenv` defaults and the
placeholder validation (`startswith('<')`, exit 1 with a diagnostic on
stderr before any other action), then `main`. -/
def script_run (envHostname envKey : Option String) (w : World) : RunResult :=
  let hostname := envHostname.getD HOSTNAME_PLACEHOLDER
  let key := envKey.getD KEY_PLACEHOLDER
  if startsWithLt hostname || startsWithLt key then
    ⟨.exit 1, [.errConfig], w.fs⟩
  else
    main_run ⟨hostname, key⟩ w

/-- The decimal digit character for `n < 10`. -/
def digitChar (n : Nat) : Char := Char.ofNat (48 + n)

/-- The canonical decimal digit string of `n ≤ 255` (no leading
zeros), written with explicit divisions. -/
def myDigits (n : Nat) : List Char :=
  if n < 10 then [digitChar n]
  else if n < 100 then [digitChar (n / 10), digitChar (n % 10)]
  else [digitChar (n / 100), digitChar (n / 10 % 10), digitChar (n % 10)]

/-- Is the head of `l` a digit (`false` at the end of the subject)? -/
def headIsDigit (l : List Char) : Bool :=
  match l with
  | [] => false
  | c :: _ => isDigitC c

/-- The canonical dotted-quad string `a.b.c.d` (decimal, no leading
zeros), as formed with `Nat.repr`. -/
def ipQuad (a b c d : Nat) : String :=
  Nat.repr a ++ "." ++ Nat.repr b ++ "." ++ Nat.repr c ++ "." ++ Nat.repr d

/-- Failure of a single lookup endpoint as the claims state it:
transport error, non-success status, or no IPv4 match in the body. -/
def lookupFails (resp : Option HttpResponse) : Prop :=
  match resp with
  | none => True
  | some r => raiseForStatus r = true ∨ findall ip_pattern r.text = []

/-- The failure condition of C1 on the provider's response: transport
error, or first token outside good/nochg, or non-success status. -/
def updateFailCond (resp : Option HttpResponse) : Prop :=
  match resp with
  | none => True
  | some r =>
    (parse_he_response r.text ≠ some "good" ∧
      parse_he_response r.text ≠ some "nochg") ∨ r.status ≠ 200

/-! ## The matched language of the pattern -/

/-- Decimal value of a digit string (the value of an octet group). -/
def digitsVal (l : List Char) : Nat :=
  l.foldl (fun a c => 10 * a + (charCode c - 48)) 0

/-- The language of a regex, ignoring the context of boundary
assertions: `Accepts r l` says that `r` can match exactly the
characters `l` (with `\b` consuming nothing). Every substring reported
by the matcher satisfies this relation. -/
inductive Accepts : RE → List Char → Prop where
  | cls {p : Char → Bool} {c : Char} :
      p c = true → Accepts (.cls p) [c]
  | seq {a b : RE} {la lb : List Char} :
      Accepts a la → Accepts b lb → Accepts (.seq a b) (la ++ lb)
  | altL {a b : RE} {l : List Char} : Accepts a l → Accepts (.alt a b) l
  | altR {a b : RE} {l : List Char} : Accepts b l → Accepts (.alt a b) l
  | optSome {a : RE} {l : List Char} : Accepts a l → Accepts (.opt a) l
  | optNone {a : RE} : Accepts (.opt a) []
  | wb : Accepts .wb []

/-- Soundness of the matcher: a successful run of `matchRE r prev l k`
splits `l` into a part matched by `r` and a remainder handed to the
continuation. -/
theorem matchRE_sound (r : RE) :
    ∀ prev l k res, matchRE r prev l k = some res →
      ∃ pre p' rest, l = pre ++ rest ∧ Accepts r pre ∧ k p' rest = some res := by
  induction r with
  | cls p =>
    intro prev l k res h
    cases l with
    | nil => simp [matchRE] at h
    | cons c cs =>
      simp only [matchRE] at h
      by_cases hp : p c = true
      · rw [if_pos hp] at h
        exact ⟨[c], some c, cs, rfl, Accepts.cls hp, h⟩
      · rw [if_neg hp] at h
        exact absurd h (by simp)
  | seq a b iha ihb =>
    intro prev l k res h
    simp only [matchRE] at h
    obtain ⟨pa, p1, ra, hl, hacc, hk⟩ := iha _ _ _ _ h
    obtain ⟨pb, p2, rb, hl2, haccb, hk2⟩ := ihb _ _ _ _ hk
    exact ⟨pa ++ pb, p2, rb, by rw [hl, hl2, List.append_assoc],
      Accepts.seq hacc haccb, hk2⟩
  | alt a b iha ihb =>
    intro prev l k res h
    simp only [matchRE] at h
    cases hA : matchRE a prev l k with
    | some r0 =>
      rw [hA] at h
      simp only [obar] at h
      obtain ⟨pa, p1, ra, hl, hacc, hk⟩ := iha _ _ _ _ (hA.trans h)
      exact ⟨pa, p1, ra, hl, Accepts.altL hacc, hk⟩
    | none =>
      rw [hA] at h
      simp only [obar] at h
      obtain ⟨pb, p1, rb, hl, hacc, hk⟩ := ihb _ _ _ _ h
      exact ⟨pb, p1, rb, hl, Accepts.altR hacc, hk⟩
  | opt a iha =>
    intro prev l k res h
    simp only [matchRE] at h
    cases hA : matchRE a prev l k with
    | some r0 =>
      rw [hA] at h
      simp only [obar] at h
      obtain ⟨pa, p1, ra, hl, hacc, hk⟩ := iha _ _ _ _ (hA.trans h)
      exact ⟨pa, p1, ra, hl, Accepts.optSome hacc, hk⟩
    | none =>
      rw [hA] at h
      simp only [obar] at h
      exact ⟨[], prev, l, rfl, Accepts.optNone, h⟩
  | wb =>
    intro prev l k res h
    simp only [matchRE] at h
    by_cases hb : (prevIsWord prev != headIsWord l) = true
    · rw [if_pos hb] at h
      exact ⟨[], prev, l, rfl, Accepts.wb, h⟩
    · rw [if_neg hb] at h
      exact absurd h (by simp)

/-- Every list recorded by the `findall` scan is matched by the
pattern. -/
theorem findallFuel_sound :
    ∀ fuel r prev l m, m ∈ findallFuel fuel r prev l → Accepts r m := by
  intro fuel
  induction fuel with
  | zero => intro r prev l m hm; simp [findallFuel] at hm
  | succ n ih =>
    intro r prev l m hm
    simp only [findallFuel] at hm
    cases hH : matchHere r prev l with
    | none =>
      rw [hH] at hm
      dsimp only at hm
      cases l with
      | nil => simp at hm
      | cons c cs => exact ih _ _ _ _ hm
    | some rest =>
      rw [hH] at hm
      dsimp only at hm
      obtain ⟨pre, p', rest', hl, hacc, hk⟩ := matchRE_sound r prev l _ rest hH
      have hrest : rest' = rest := by simpa using hk
      subst hrest
      have hlen : l.length - rest'.length = pre.length := by
        rw [hl]; simp
      rw [hlen] at hm
      have htake : l.take pre.length = pre := by
        rw [hl]; exact List.take_left pre rest'
      by_cases hz : pre.length = 0
      · rw [if_pos hz] at hm
        have hpre : pre = [] := List.eq_nil_of_length_eq_zero hz
        cases l with
        | nil =>
          simp only [List.mem_singleton] at hm
          rw [hm, ← hpre]; exact hacc
        | cons c cs =>
          rcases List.mem_cons.mp hm with h1 | h2
          · rw [h1, ← hpre]; exact hacc
          · exact ih _ _ _ _ h2
      · rw [if_neg hz] at hm
        rcases List.mem_cons.mp hm with h1 | h2
        · rw [h1, htake]; exact hacc
        · exact ih _ _ _ _ h2

/-- Every string reported by `findall` is matched by the pattern. -/
theorem findall_sound (r : RE) (s m : String) (hm : m ∈ findall r s) :
    ∃ lc, m = String.mk lc ∧ Accepts r lc := by
  simp only [findall, List.mem_map] at hm
  obtain ⟨lc, hmem, hmk⟩ := hm
  exact ⟨lc, hmk.symm, findallFuel_sound _ _ _ _ _ hmem⟩

/-- The three facts needed about an explicit octet character list:
nonempty, all digits, value at most 255. Hypotheses give each
character's code bounds. -/
theorem octet_facts1 {c1 : Char} (h1 : 48 ≤ charCode c1 ∧ charCode c1 ≤ 57) :
    ([c1] ≠ [] ∧ (∀ c ∈ [c1], isDigitC c = true) ∧ digitsVal [c1] ≤ 255) := by
  refine ⟨by simp, ?_, ?_⟩
  · intro c hc
    simp only [List.mem_singleton] at hc
    subst hc
    simp only [isDigitC, Bool.and_eq_true, decide_eq_true_eq]
    omega
  · simp only [digitsVal, List.foldl]
    omega

/-- As `octet_facts1`, for a two-character octet. -/
theorem octet_facts2 {c1 c2 : Char}
    (h1 : 48 ≤ charCode c1 ∧ charCode c1 ≤ 57)
    (h2 : 48 ≤ charCode c2 ∧ charCode c2 ≤ 57) :
    ([c1, c2] ≠ [] ∧ (∀ c ∈ [c1, c2], isDigitC c = true) ∧
      digitsVal [c1, c2] ≤ 255) := by
  refine ⟨by simp, ?_, ?_⟩
  · intro c hc
    simp only [List.mem_cons, List.not_mem_nil, or_false] at hc
    rcases hc with rfl | rfl <;>
      simp only [isDigitC, Bool.and_eq_true, decide_eq_true_eq] <;> omega
  · simp only [digitsVal, List.foldl]
    omega

/-- As `octet_facts1`, for a three-character octet whose value bound
follows from the given code bounds. -/
theorem octet_facts3 {c1 c2 c3 : Char}
    (h1 : 48 ≤ charCode c1 ∧ charCode c1 ≤ 57)
    (h2 : 48 ≤ charCode c2 ∧ charCode c2 ≤ 57)
    (h3 : 48 ≤ charCode c3 ∧ charCode c3 ≤ 57)
    (hv : 100 * (charCode c1 - 48) + 10 * (charCode c2 - 48) +
      (charCode c3 - 48) ≤ 255) :
    ([c1, c2, c3] ≠ [] ∧ (∀ c ∈ [c1, c2, c3], isDigitC c = true) ∧
      digitsVal [c1, c2, c3] ≤ 255) := by
  refine ⟨by simp, ?_, ?_⟩
  · intro c hc
    simp only [List.mem_cons, List.not_mem_nil, or_false] at hc
    rcases hc with rfl | rfl | rfl <;>
      simp only [isDigitC, Bool.and_eq_true, decide_eq_true_eq] <;> omega
  · simp only [digitsVal, List.foldl]
    omega

/-- Characterization of the octet alternation: anything it matches is a
nonempty digit string whose decimal value is at most 255. -/
theorem accepts_octRE {o : List Char} (h : Accepts octRE o) :
    o ≠ [] ∧ (∀ c ∈ o, isDigitC c = true) ∧ digitsVal o ≤ 255 := by
  unfold octRE at h
  cases h with
  | altL h1 =>
    cases h1 with
    | seq hA hB =>
      cases hB with
      | seq hC hD =>
        cases hA with
        | cls hc1 =>
          cases hC with
          | cls hc2 =>
            cases hD with
            | cls hc3 =>
              simp only [isTwoC, decide_eq_true_eq] at hc1
              simp only [isFiveC, decide_eq_true_eq] at hc2
              simp only [isZeroToFiveC, Bool.and_eq_true,
                decide_eq_true_eq] at hc3
              simp only [List.singleton_append, List.cons_append]
              exact octet_facts3 (by omega) (by omega) (by omega) (by omega)
  | altR h1 =>
    cases h1 with
    | altL h2 =>
      cases h2 with
      | seq hA hB =>
        cases hB with
        | seq hC hD =>
          cases hA with
          | cls hc1 =>
            cases hC with
            | cls hc2 =>
              cases hD with
              | cls hc3 =>
                simp only [isTwoC, decide_eq_true_eq] at hc1
                simp only [isZeroToFourC, Bool.and_eq_true,
                  decide_eq_true_eq] at hc2
                simp only [isDigitC, Bool.and_eq_true, decide_eq_true_eq] at hc3
                simp only [List.singleton_append, List.cons_append]
                exact octet_facts3 (by omega) (by omega) (by omega) (by omega)
    | altR h2 =>
      cases h2 with
      | seq hA hB =>
        cases hB with
        | seq hC hD =>
          cases hC with
          | cls hc2 =>
            simp only [isDigitC, Bool.and_eq_true, decide_eq_true_eq] at hc2
            cases hA with
            | optSome h3 =>
              cases h3 with
              | cls hc1 =>
                simp only [isZeroOrOneC, Bool.or_eq_true,
                  decide_eq_true_eq] at hc1
                cases hD with
                | optSome h4 =>
                  cases h4 with
                  | cls hc3 =>
                    simp only [isDigitC, Bool.and_eq_true,
                      decide_eq_true_eq] at hc3
                    simp only [List.singleton_append, List.cons_append]
                    exact octet_facts3 (by omega) (by omega) (by omega)
                      (by omega)
                | optNone =>
                  simp only [List.singleton_append, List.append_nil]
                  exact octet_facts2 (by omega) (by omega)
            | optNone =>
              cases hD with
              | optSome h4 =>
                cases h4 with
                | cls hc3 =>
                  simp only [isDigitC, Bool.and_eq_true,
                    decide_eq_true_eq] at hc3
                  simp only [List.nil_append, List.singleton_append,
                    List.cons_append]
                  exact octet_facts2 (by omega) (by omega)
              | optNone =>
                simp only [List.nil_append, List.append_nil]
                exact octet_facts1 (by omega)

/-- Decomposition of a match of the whole pattern: it is four
octet-matched groups separated by three dots. -/
theorem accepts_ip_pattern {l : List Char} (h : Accepts ip_pattern l) :
    ∃ o1 d1 o2 d2 o3 d3 o4,
      l = o1 ++ d1 :: (o2 ++ d2 :: (o3 ++ d3 :: o4)) ∧
      isDotC d1 = true ∧ isDotC d2 = true ∧ isDotC d3 = true ∧
      Accepts octRE o1 ∧ Accepts octRE o2 ∧ Accepts octRE o3 ∧
      Accepts octRE o4 := by
  unfold ip_pattern octDotRE at h
  cases h with
  | seq hW h1 =>
    cases hW with
    | wb =>
      cases h1 with
      | seq hG1 h2 =>
        cases hG1 with
        | seq hO1 hD1 =>
          cases hD1 with
          | cls hd1 =>
            cases h2 with
            | seq hG2 h3 =>
              cases hG2 with
              | seq hO2 hD2 =>
                cases hD2 with
                | cls hd2 =>
                  cases h3 with
                  | seq hG3 h4 =>
                    cases hG3 with
                    | seq hO3 hD3 =>
                      cases hD3 with
                      | cls hd3 =>
                        cases h4 with
                        | seq hO4 hW2 =>
                          cases hW2 with
                          | wb =>
                            refine ⟨_, _, _, _, _, _, _, ?_, hd1, hd2, hd3,
                              hO1, hO2, hO3, hO4⟩
                            simp [List.append_assoc]

/-- A list that ends in a distinguished non-digit separator after a
digit prefix splits uniquely: two such decompositions agree. -/
theorem split_at_sep {a : List Char} :
    ∀ {b : List Char} {x y : Char} {u v : List Char},
      a ++ x :: u = b ++ y :: v →
      (∀ c ∈ a, isDigitC c = true) → (∀ c ∈ b, isDigitC c = true) →
      isDigitC x = false → isDigitC y = false →
      a = b ∧ x = y ∧ u = v := by
  induction a with
  | nil =>
    intro b x y u v h ha hb hx hy
    cases b with
    | nil =>
      simp only [List.nil_append] at h
      exact ⟨rfl, (List.cons.injEq _ _ _ _ ▸ h).1,
        (List.cons.injEq _ _ _ _ ▸ h).2⟩
    | cons b0 bs =>
      simp only [List.nil_append, List.cons_append, List.cons.injEq] at h
      obtain ⟨rfl, -⟩ := h
      have := hb x (by simp)
      rw [hx] at this
      exact absurd this (by simp)
  | cons a0 as ih =>
    intro b x y u v h ha hb hx hy
    cases b with
    | nil =>
      simp only [List.cons_append, List.nil_append, List.cons.injEq] at h
      obtain ⟨rfl, -⟩ := h
      have := ha a0 (by simp)
      rw [hy] at this
      exact absurd this (by simp)
    | cons b0 bs =>
      simp only [List.cons_append, List.cons.injEq] at h
      obtain ⟨rfl, h2⟩ := h
      obtain ⟨h3, h4, h5⟩ := ih h2 (fun c hc => ha c (by simp [hc]))
        (fun c hc => hb c (by simp [hc])) hx hy
      exact ⟨by rw [h3], h4, h5⟩

/-- A dot is not a digit. -/
theorem isDotC_not_digit {c : Char} (h : isDotC c = true) :
    isDigitC c = false := by
  simp only [isDotC, decide_eq_true_eq] at h
  simp only [isDigitC, Bool.and_eq_false_iff, decide_eq_false_iff_not]
  omega

/-- The dot character satisfies `isDotC` and is not a digit. -/
theorem dot_lit : isDotC '.' = true := by decide

/-- Helper for the rejection half of the pattern claim: a dotted-quad
shaped string one of whose digit groups has value over 255 never
appears among the matches `findall` extracts, from any text. -/
theorem overlarge_quad_not_extracted {g1 g2 g3 g4 : List Char}
    (hd1 : ∀ c ∈ g1, isDigitC c = true) (hd2 : ∀ c ∈ g2, isDigitC c = true)
    (hd3 : ∀ c ∈ g3, isDigitC c = true) (hd4 : ∀ c ∈ g4, isDigitC c = true)
    (hv : 255 < digitsVal g1 ∨ 255 < digitsVal g2 ∨ 255 < digitsVal g3 ∨
      255 < digitsVal g4)
    (text : String) :
    String.mk (g1 ++ '.' :: (g2 ++ '.' :: (g3 ++ '.' :: g4))) ∉
      findall ip_pattern text := by
  intro hmem
  obtain ⟨lc, hmk, hacc⟩ := findall_sound _ _ _ hmem
  have hlc : g1 ++ '.' :: (g2 ++ '.' :: (g3 ++ '.' :: g4)) = lc := by
    injection hmk
  obtain ⟨o1, d1, o2, d2, o3, d3, o4, hdec, hdot1, hdot2, hdot3,
    ho1, ho2, ho3, ho4⟩ := accepts_ip_pattern hacc
  obtain ⟨-, ho1d, ho1v⟩ := accepts_octRE ho1
  obtain ⟨-, ho2d, ho2v⟩ := accepts_octRE ho2
  obtain ⟨-, ho3d, ho3v⟩ := accepts_octRE ho3
  obtain ⟨-, ho4d, ho4v⟩ := accepts_octRE ho4
  have heq : g1 ++ '.' :: (g2 ++ '.' :: (g3 ++ '.' :: g4)) =
      o1 ++ d1 :: (o2 ++ d2 :: (o3 ++ d3 :: o4)) := by
    rw [hlc, hdec]
  obtain ⟨e1, -, heq2⟩ := split_at_sep heq hd1 ho1d
    (isDotC_not_digit dot_lit) (isDotC_not_digit hdot1)
  obtain ⟨e2, -, heq3⟩ := split_at_sep heq2 hd2 ho2d
    (isDotC_not_digit dot_lit) (isDotC_not_digit hdot2)
  obtain ⟨e3, -, e4⟩ := split_at_sep heq3 hd3 ho3d
    (isDotC_not_digit dot_lit) (isDotC_not_digit hdot3)
  rcases hv with hv | hv | hv | hv
  · rw [e1] at hv; omega
  · rw [e2] at hv; omega
  · rw [e3] at hv; omega
  · rw [e4] at hv; omega

/-! ## Computation of the matcher on canonical dotted quads -/

set_option maxRecDepth 4096 in
/-- `Nat.repr` agrees with `myDigits` on all octet values. -/
theorem repr_eq_myDigits : ∀ n, n < 256 → (Nat.repr n).toList = myDigits n := by
  decide

theorem obar_none (f : Unit → Option (List Char)) : obar none f = f () := rfl

theorem obar_some (r : List Char) (f : Unit → Option (List Char)) :
    obar (some r) f = some r := rfl

/-- A character class that only contains digits fails on a position
whose head is not a digit. -/
theorem cls_none_of_digit_subset {p : Char → Bool}
    (hp : ∀ c, p c = true → isDigitC c = true) {prev : Option Char}
    {l : List Char} {k : Option Char → List Char → Option (List Char)}
    (hl : headIsDigit l = false) : matchRE (.cls p) prev l k = none := by
  cases l with
  | nil => rfl
  | cons c cs =>
    simp only [matchRE]
    have hpc : p c = false := by
      cases hc : p c
      · rfl
      · have := hp c hc
        simp only [headIsDigit] at hl
        rw [hl] at this
        exact absurd this (by simp)
    rw [hpc]
    simp

theorem cls_five_none {prev : Option Char} {l : List Char} {k}
    (hl : headIsDigit l = false) : matchRE (.cls isFiveC) prev l k = none :=
  cls_none_of_digit_subset
    (fun c h => by
      simp only [isFiveC, decide_eq_true_eq] at h
      simp only [isDigitC, Bool.and_eq_true, decide_eq_true_eq]
      omega) hl

theorem cls_zerotofive_none {prev : Option Char} {l : List Char} {k}
    (hl : headIsDigit l = false) :
    matchRE (.cls isZeroToFiveC) prev l k = none :=
  cls_none_of_digit_subset
    (fun c h => by
      simp only [isZeroToFiveC, Bool.and_eq_true, decide_eq_true_eq] at h
      simp only [isDigitC, Bool.and_eq_true, decide_eq_true_eq]
      omega) hl

theorem cls_zerotofour_none {prev : Option Char} {l : List Char} {k}
    (hl : headIsDigit l = false) :
    matchRE (.cls isZeroToFourC) prev l k = none :=
  cls_none_of_digit_subset
    (fun c h => by
      simp only [isZeroToFourC, Bool.and_eq_true, decide_eq_true_eq] at h
      simp only [isDigitC, Bool.and_eq_true, decide_eq_true_eq]
      omega) hl

theorem cls_digit_none {prev : Option Char} {l : List Char} {k}
    (hl : headIsDigit l = false) : matchRE (.cls isDigitC) prev l k = none :=
  cls_none_of_digit_subset (fun _ h => h) hl

/-- The dot class fails on a position whose head is a digit. -/
theorem cls_dot_none_digit {prev : Option Char} {l : List Char} {k}
    (hl : headIsDigit l = true) : matchRE (.cls isDotC) prev l k = none := by
  cases l with
  | nil => simp [headIsDigit] at hl
  | cons c cs =>
    simp only [headIsDigit] at hl
    simp only [matchRE]
    have : isDotC c = false := by
      simp only [isDigitC, Bool.and_eq_true, decide_eq_true_eq] at hl
      simp only [isDotC, decide_eq_false_iff_not]
      omega
    rw [this]
    simp

/-- The word-boundary assertion fails between two digits. -/
theorem wb_none_digit {c : Char} (hc : isDigitC c = true) {l : List Char} {k}
    (hl : headIsDigit l = true) : matchRE .wb (some c) l k = none := by
  cases l with
  | nil => simp [headIsDigit] at hl
  | cons d ds =>
    simp only [headIsDigit] at hl
    simp only [matchRE, prevIsWord, headIsWord]
    have hw1 : isWordC c = true := by
      simp only [isDigitC, Bool.and_eq_true, decide_eq_true_eq] at hc
      simp only [isWordC, Bool.or_eq_true, Bool.and_eq_true, decide_eq_true_eq]
      omega
    have hw2 : isWordC d = true := by
      simp only [isDigitC, Bool.and_eq_true, decide_eq_true_eq] at hl
      simp only [isWordC, Bool.or_eq_true, Bool.and_eq_true, decide_eq_true_eq]
      omega
    simp [hw1, hw2]

/-- The octet alternation on a single digit followed by a non-digit:
the engine consumes exactly that digit. -/
theorem oct_step1 {c1 : Char} (h1 : isDigitC c1 = true) {prev : Option Char}
    {rest : List Char} {k : Option Char → List Char → Option (List Char)}
    (hrest : headIsDigit rest = false) :
    matchRE octRE prev (c1 :: rest) k = k (some c1) rest := by
  unfold octRE
  simp only [matchRE]
  simp only [cls_five_none hrest, cls_zerotofour_none hrest,
    cls_digit_none hrest, h1]
  by_cases ht : isTwoC c1 = true <;> by_cases hz : isZeroOrOneC c1 = true <;>
    simp [ht, hz, obar]

/-- The octet alternation on two digits followed by a non-digit:
the engine consumes exactly the two digits (continuations that resume
on a digit must fail, which makes the backtracking alternatives
agree). -/
theorem oct_step2 {c1 c2 : Char} (h1 : isDigitC c1 = true)
    (h2 : isDigitC c2 = true) {prev : Option Char} {rest : List Char}
    {k : Option Char → List Char → Option (List Char)}
    (hrest : headIsDigit rest = false)
    (hk : ∀ c l', isDigitC c = true → headIsDigit l' = true →
      k (some c) l' = none) :
    matchRE octRE prev (c1 :: c2 :: rest) k = k (some c2) rest := by
  have hk1 : k (some c1) (c2 :: rest) = none :=
    hk c1 (c2 :: rest) h1 (by simp [headIsDigit, h2])
  unfold octRE
  simp only [matchRE]
  simp only [cls_zerotofive_none hrest, cls_digit_none hrest, h1, h2]
  by_cases ht : isTwoC c1 = true <;> by_cases hf : isFiveC c2 = true <;>
    by_cases h4 : isZeroToFourC c2 = true <;>
    by_cases hz : isZeroOrOneC c1 = true <;>
    cases hres : k (some c2) rest <;>
    simp [ht, hf, h4, hz, hres, hk1, obar]

/-- The octet alternation on three digits (in one of the shapes the
pattern can take: `25[0-5]`, `2[0-4]d`, or `[01]dd`) followed by a
non-digit: the engine consumes exactly the three digits. -/
theorem oct_step3 {c1 c2 c3 : Char} (h1 : isDigitC c1 = true)
    (h2 : isDigitC c2 = true) (h3 : isDigitC c3 = true)
    (hform : (isTwoC c1 = true ∧ isFiveC c2 = true ∧
        isZeroToFiveC c3 = true) ∨
      (isTwoC c1 = true ∧ isZeroToFourC c2 = true) ∨
      isZeroOrOneC c1 = true)
    {prev : Option Char} {rest : List Char}
    {k : Option Char → List Char → Option (List Char)}
    (hrest : headIsDigit rest = false)
    (hk : ∀ c l', isDigitC c = true → headIsDigit l' = true →
      k (some c) l' = none) :
    matchRE octRE prev (c1 :: c2 :: c3 :: rest) k = k (some c3) rest := by
  have hk1 : k (some c1) (c2 :: c3 :: rest) = none :=
    hk c1 _ h1 (by simp [headIsDigit, h2])
  have hk2 : k (some c2) (c3 :: rest) = none :=
    hk c2 _ h2 (by simp [headIsDigit, h3])
  unfold octRE
  simp only [matchRE]
  simp only [cls_zerotofive_none hrest, cls_zerotofour_none hrest,
    cls_digit_none hrest, cls_five_none hrest, h1, h2, h3]
  rcases hform with ⟨ht, hf, h05⟩ | ⟨ht, h04⟩ | hz
  · have hz : isZeroOrOneC c1 = false := by
      simp only [isTwoC, decide_eq_true_eq] at ht
      simp only [isZeroOrOneC, Bool.or_eq_false_iff, decide_eq_false_iff_not]
      omega
    cases hres : k (some c3) rest <;>
      simp [ht, hf, h05, hz, hres, hk1, hk2, obar]
  · have hz : isZeroOrOneC c1 = false := by
      simp only [isTwoC, decide_eq_true_eq] at ht
      simp only [isZeroOrOneC, Bool.or_eq_false_iff, decide_eq_false_iff_not]
      omega
    have hf : isFiveC c2 = false := by
      simp only [isZeroToFourC, Bool.and_eq_true, decide_eq_true_eq] at h04
      simp only [isFiveC, decide_eq_false_iff_not]
      omega
    cases hres : k (some c3) rest <;>
      simp [ht, hf, h04, hz, hres, hk1, hk2, obar]
  · have ht : isTwoC c1 = false := by
      simp only [isZeroOrOneC, Bool.or_eq_true, decide_eq_true_eq] at hz
      simp only [isTwoC, decide_eq_false_iff_not]
      omega
    cases hres : k (some c3) rest <;>
      simp [ht, hz, hres, hk1, hk2, obar]

theorem digitChar_isDigit : ∀ m, m < 10 → isDigitC (digitChar m) = true := by
  decide

theorem digitChar_word : ∀ m, m < 10 → isWordC (digitChar m) = true := by
  decide

theorem digitChar_zeroOne : ∀ m, m ≤ 1 → isZeroOrOneC (digitChar m) = true := by
  decide

theorem digitChar_zeroFour : ∀ m, m ≤ 4 →
    isZeroToFourC (digitChar m) = true := by
  decide

theorem digitChar_zeroFive : ∀ m, m ≤ 5 →
    isZeroToFiveC (digitChar m) = true := by
  decide

theorem myDigits_lt10 {n : Nat} (h : n < 10) : myDigits n = [digitChar n] := by
  simp [myDigits, h]

theorem myDigits_mid {n : Nat} (h1 : 10 ≤ n) (h2 : n < 100) :
    myDigits n = [digitChar (n / 10), digitChar (n % 10)] := by
  unfold myDigits
  rw [if_neg (by omega), if_pos h2]

theorem myDigits_big {n : Nat} (h1 : 100 ≤ n) :
    myDigits n = [digitChar (n / 100), digitChar (n / 10 % 10),
      digitChar (n % 10)] := by
  unfold myDigits
  rw [if_neg (by omega), if_neg (by omega)]

/-- The octet alternation on the canonical digits of `n ≤ 255` followed
by a non-digit consumes exactly those digits. -/
theorem oct_step_canonical {n : Nat} (hn : n ≤ 255) {prev : Option Char}
    {rest : List Char} {k : Option Char → List Char → Option (List Char)}
    (hrest : headIsDigit rest = false)
    (hk : ∀ c l', isDigitC c = true → headIsDigit l' = true →
      k (some c) l' = none) :
    matchRE octRE prev (myDigits n ++ rest) k =
      k (some (digitChar (n % 10))) rest := by
  rcases Nat.lt_or_ge n 10 with h10 | h10
  · rw [myDigits_lt10 h10]
    simp only [List.singleton_append]
    rw [oct_step1 (digitChar_isDigit n h10) hrest, Nat.mod_eq_of_lt h10]
  · rcases Nat.lt_or_ge n 100 with h100 | h100
    · rw [myDigits_mid h10 h100]
      simp only [List.cons_append, List.singleton_append]
      exact oct_step2 (digitChar_isDigit _ (by omega))
        (digitChar_isDigit _ (by omega)) hrest hk
    · rw [myDigits_big h100]
      simp only [List.cons_append, List.singleton_append]
      refine oct_step3 (digitChar_isDigit _ (by omega))
        (digitChar_isDigit _ (by omega)) (digitChar_isDigit _ (by omega))
        ?_ hrest hk
      rcases Nat.lt_or_ge n 200 with h200 | h200
      · right; right
        rw [show n / 100 = 1 by omega]
        exact digitChar_zeroOne 1 (by omega)
      · rcases Nat.lt_or_ge n 250 with h250 | h250
        · right; left
          refine ⟨by rw [show n / 100 = 2 by omega]; decide, ?_⟩
          exact digitChar_zeroFour _ (by omega)
        · left
          refine ⟨by rw [show n / 100 = 2 by omega]; decide,
            by rw [show n / 10 % 10 = 5 by omega]; decide, ?_⟩
          exact digitChar_zeroFive _ (by omega)

/-- One-step unfolding of the matcher on a concatenation. -/
theorem seq_unfold (a b : RE) (prev : Option Char) (l : List Char)
    (k : Option Char → List Char → Option (List Char)) :
    matchRE (.seq a b) prev l k =
      matchRE a prev l (fun p' l' => matchRE b p' l' k) := rfl

/-- One octet-plus-dot group of the pattern applied to canonical digits
and a literal dot steps to the rest of the pattern after the dot. -/
theorem octdot_step {n : Nat} (hn : n ≤ 255) {X : RE} {prev : Option Char}
    {R : List Char} {k : Option Char → List Char → Option (List Char)} :
    matchRE (.seq octDotRE X) prev (myDigits n ++ '.' :: R) k =
      matchRE X (some '.') R k := by
  rw [seq_unfold, show octDotRE = RE.seq octRE (RE.cls isDotC) from rfl,
    seq_unfold]
  rw [oct_step_canonical hn (by simp [headIsDigit, isDigitC, charCode])
    (fun c l' hc hl => cls_dot_none_digit hl)]
  simp only [matchRE]
  rw [if_pos (by decide : isDotC '.' = true)]

/-- One-step unfolding of the matcher on a word boundary. -/
theorem wb_unfold (prev : Option Char) (l : List Char)
    (k : Option Char → List Char → Option (List Char)) :
    matchRE .wb prev l k =
      if prevIsWord prev != headIsWord l then k prev l else none := rfl

/-- The first character of a canonical digit string is a word
character. -/
theorem myDigits_headIsWord {n : Nat} (hn : n ≤ 255) (R : List Char) :
    headIsWord (myDigits n ++ R) = true := by
  rcases Nat.lt_or_ge n 10 with h10 | h10
  · rw [myDigits_lt10 h10]
    simp only [List.singleton_append, headIsWord]
    exact digitChar_word n h10
  · rcases Nat.lt_or_ge n 100 with h100 | h100
    · rw [myDigits_mid h10 h100]
      simp only [List.cons_append, headIsWord]
      exact digitChar_word _ (by omega)
    · rw [myDigits_big h100]
      simp only [List.cons_append, headIsWord]
      exact digitChar_word _ (by omega)

/-- A leading word boundary at the very start of the subject passes
when the subject starts with a word character. -/
theorem wbstart_step {X : RE} {R : List Char}
    {k : Option Char → List Char → Option (List Char)}
    (hw : headIsWord R = true) :
    matchRE (.seq .wb X) none R k = matchRE X none R k := by
  rw [seq_unfold, wb_unfold, if_pos (by simp [prevIsWord, hw])]

/-- The engine matches a whole canonical dotted quad at position zero,
consuming all of it. -/
theorem match_quad {a b c d : Nat} (ha : a ≤ 255) (hb : b ≤ 255)
    (hc : c ≤ 255) (hd : d ≤ 255) :
    matchHere ip_pattern none
      (myDigits a ++ '.' :: (myDigits b ++ '.' ::
        (myDigits c ++ '.' :: myDigits d))) = some [] := by
  unfold matchHere
  rw [show ip_pattern = RE.seq RE.wb (RE.seq octDotRE (RE.seq octDotRE
    (RE.seq octDotRE (RE.seq octRE RE.wb)))) from rfl]
  rw [wbstart_step (myDigits_headIsWord ha _)]
  rw [octdot_step ha, octdot_step hb, octdot_step hc]
  rw [seq_unfold]
  rw [← List.append_nil (myDigits d)]
  rw [oct_step_canonical hd (show headIsDigit [] = false from rfl)
    (fun c l' hcd hl => wb_none_digit hcd hl)]
  show matchRE .wb (some (digitChar (d % 10))) [] (fun _ l' => some l') =
    some []
  rw [wb_unfold,
    if_pos (by simp [prevIsWord, headIsWord, digitChar_word (d % 10)
      (by omega)])]

/-- The octet alternation cannot match at the end of the subject. -/
theorem oct_nil {prev : Option Char}
    {k : Option Char → List Char → Option (List Char)} :
    matchRE octRE prev [] k = none := by
  unfold octRE
  simp only [matchRE]
  rfl

/-- The whole pattern cannot match at the end of the subject. -/
theorem matchHere_ip_nil (prev : Option Char) :
    matchHere ip_pattern prev [] = none := by
  unfold matchHere
  rw [show ip_pattern = RE.seq RE.wb (RE.seq octDotRE (RE.seq octDotRE
    (RE.seq octDotRE (RE.seq octRE RE.wb)))) from rfl]
  rw [seq_unfold, wb_unfold]
  by_cases hb : (prevIsWord prev != headIsWord ([] : List Char)) = true
  · rw [if_pos hb]
    show matchRE (RE.seq octDotRE (RE.seq octDotRE (RE.seq octDotRE
      (RE.seq octRE RE.wb)))) prev [] (fun _ l' => some l') = none
    rw [seq_unfold, show octDotRE = RE.seq octRE (RE.cls isDotC) from rfl,
      seq_unfold]
    exact oct_nil
  · rw [if_neg hb]

/-- The scan of the empty subject with the IP pattern finds nothing. -/
theorem findallFuel_ip_nil (fuel : Nat) (prev : Option Char) :
    findallFuel fuel ip_pattern prev [] = [] := by
  cases fuel with
  | zero => rfl
  | succ n =>
    simp only [findallFuel, matchHere_ip_nil]

/-- Scanning a subject that is exactly a canonical dotted quad yields
exactly that quad. -/
theorem findallFuel_quad {a b c d : Nat} (ha : a ≤ 255) (hb : b ≤ 255)
    (hc : c ≤ 255) (hd : d ≤ 255) :
    findallFuel ((myDigits a ++ '.' :: (myDigits b ++ '.' ::
        (myDigits c ++ '.' :: myDigits d))).length + 1) ip_pattern none
      (myDigits a ++ '.' :: (myDigits b ++ '.' ::
        (myDigits c ++ '.' :: myDigits d))) =
    [myDigits a ++ '.' :: (myDigits b ++ '.' ::
      (myDigits c ++ '.' :: myDigits d))] := by
  simp only [findallFuel, match_quad ha hb hc hd]
  have hlen : (myDigits a ++ '.' :: (myDigits b ++ '.' ::
      (myDigits c ++ '.' :: myDigits d))).length ≠ 0 := by
    simp [List.length_append]
  simp only [List.length_nil, Nat.sub_zero, List.take_length,
    List.drop_length, if_neg hlen, findallFuel_ip_nil]

theorem str_append_toList (s t : String) :
    (s ++ t).toList = s.toList ++ t.toList := rfl

theorem mk_toList (s : String) : String.mk s.toList = s := rfl

/-- The characters of `ipQuad` are the canonical digits with literal
dots, associated to the right. -/
theorem ipQuad_toList {a b c d : Nat} (ha : a ≤ 255) (hb : b ≤ 255)
    (hc : c ≤ 255) (hd : d ≤ 255) :
    (ipQuad a b c d).toList =
      myDigits a ++ '.' :: (myDigits b ++ '.' ::
        (myDigits c ++ '.' :: myDigits d)) := by
  unfold ipQuad
  simp only [str_append_toList]
  rw [repr_eq_myDigits a (by omega), repr_eq_myDigits b (by omega),
    repr_eq_myDigits c (by omega), repr_eq_myDigits d (by omega)]
  simp [List.append_assoc]

/-- Helper for the acceptance half of the pattern claim: on a subject
that is exactly a canonical dotted quad with octets at most 255,
`findall` extracts exactly that quad. -/
theorem valid_quad_extracted {a b c d : Nat} (ha : a ≤ 255) (hb : b ≤ 255)
    (hc : c ≤ 255) (hd : d ≤ 255) :
    findall ip_pattern (ipQuad a b c d) = [ipQuad a b c d] := by
  unfold findall
  rw [ipQuad_toList ha hb hc hd, findallFuel_quad ha hb hc hd]
  simp only [List.map_cons, List.map_nil]
  rw [← ipQuad_toList ha hb hc hd, mk_toList]

/-- C6: for every valid dotted-quad string (four dot-separated octets
each in 0–255, written canonically), the IPv4 extraction pattern
matches it (`findall` on that string extracts exactly it); and for
every dotted-quad-shaped string containing an octet group with a value
over 255, the pattern rejects it: it is not among the matches extracted
from any text. -/
theorem ipv4_pattern_spec :
    (∀ a b c d : Nat, a ≤ 255 → b ≤ 255 → c ≤ 255 → d ≤ 255 →
      findall ip_pattern (ipQuad a b c d) = [ipQuad a b c d]) ∧
    (∀ g1 g2 g3 g4 : List Char,
      (∀ c ∈ g1, isDigitC c = true) → (∀ c ∈ g2, isDigitC c = true) →
      (∀ c ∈ g3, isDigitC c = true) → (∀ c ∈ g4, isDigitC c = true) →
      (255 < digitsVal g1 ∨ 255 < digitsVal g2 ∨ 255 < digitsVal g3 ∨
        255 < digitsVal g4) →
      ∀ text : String,
        String.mk (g1 ++ '.' :: (g2 ++ '.' :: (g3 ++ '.' :: g4))) ∉
          findall ip_pattern text) :=
  ⟨fun _ _ _ _ ha hb hc hd => valid_quad_extracted ha hb hc hd,
   fun _ _ _ _ h1 h2 h3 h4 hv text =>
     overlarge_quad_not_extracted h1 h2 h3 h4 hv text⟩

/-- Witness for C6 at concrete inputs: the quad `203.0.113.9` is
extracted from itself, and the shape `1.2.3.400` (octet group `400`)
is not extracted from the text `1.2.3.400`. -/
theorem ipv4_pattern_spec_witness :
    findall ip_pattern (ipQuad 203 0 113 9) = [ipQuad 203 0 113 9] ∧
    String.mk (['1'] ++ '.' :: (['2'] ++ '.' :: (['3'] ++ '.' ::
      ['4', '0', '0']))) ∉ findall ip_pattern "1.2.3.400" :=
  ⟨ipv4_pattern_spec.1 203 0 113 9 (by decide) (by decide) (by decide)
      (by decide),
   ipv4_pattern_spec.2 ['1'] ['2'] ['3'] ['4', '0', '0'] (by decide)
     (by decide) (by decide) (by decide) (by decide) "1.2.3.400"⟩

/-! ## Properties of the run model -/

/-- The lookup loop emits no provider requests and no cache writes. -/
theorem get_current_ip_events_clean (attempts :
    List (String × Option HttpResponse)) :
    (get_current_ip attempts).2.filter Event.isUpdateRequest = [] ∧
    (get_current_ip attempts).2.filter Event.isCacheWrite = [] := by
  induction attempts with
  | nil =>
    simp [get_current_ip, List.filter, Event.isUpdateRequest,
      Event.isCacheWrite]
  | cons hd tl ih =>
    obtain ⟨site, resp⟩ := hd
    cases resp with
    | none =>
      simp [get_current_ip, List.filter, Event.isUpdateRequest,
        Event.isCacheWrite, ih.1, ih.2]
    | some r =>
      by_cases hrs : raiseForStatus r = true
      · simp [get_current_ip, hrs, List.filter, Event.isUpdateRequest,
          Event.isCacheWrite, ih.1, ih.2]
      · cases hfa : findall ip_pattern r.text with
        | nil =>
          simp [get_current_ip, hrs, hfa, List.filter,
            Event.isUpdateRequest, Event.isCacheWrite, ih.1, ih.2]
        | cons ip t =>
          cases t with
          | nil =>
            simp [get_current_ip, hrs, hfa, List.filter,
              Event.isUpdateRequest, Event.isCacheWrite]
          | cons ip2 t2 =>
            simp [get_current_ip, hrs, hfa, List.filter,
              Event.isUpdateRequest, Event.isCacheWrite]

/-- Any address returned by the lookup loop is a match of the IP
pattern. -/
theorem get_current_ip_some_accepts (attempts :
    List (String × Option HttpResponse)) (cur : String)
    (h : (get_current_ip attempts).1 = some cur) :
    ∃ lc, cur = String.mk lc ∧ Accepts ip_pattern lc := by
  induction attempts with
  | nil => simp [get_current_ip] at h
  | cons hd tl ih =>
    obtain ⟨site, resp⟩ := hd
    cases resp with
    | none =>
      simp only [get_current_ip] at h
      exact ih h
    | some r =>
      by_cases hrs : raiseForStatus r = true
      · simp only [get_current_ip, hrs, if_pos] at h
        exact ih h
      · cases hfa : findall ip_pattern r.text with
        | nil =>
          simp only [get_current_ip, hrs, if_neg, hfa] at h
          exact ih h
        | cons ip t =>
          have hmem : ip ∈ findall ip_pattern r.text := by
            rw [hfa]; exact List.mem_cons_self ip t
          obtain ⟨lc, hmk, hacc⟩ := findall_sound _ _ _ hmem
          cases t with
          | nil =>
            simp [get_current_ip, hrs, hfa] at h
            exact ⟨lc, h ▸ hmk, hacc⟩
          | cons ip2 t2 =>
            simp [get_current_ip, hrs, hfa] at h
            exact ⟨lc, h ▸ hmk, hacc⟩

/-- Anything the IP pattern matches is nonempty. -/
theorem accepts_ip_ne_nil {lc : List Char} (h : Accepts ip_pattern lc) :
    lc ≠ [] := by
  obtain ⟨o1, d1, o2, d2, o3, d3, o4, hdec, -, -, -, -, -, -, -⟩ :=
    accepts_ip_pattern h
  rw [hdec]
  cases o1 <;> simp

/-- An address returned by the lookup loop is never the empty string
(so `main` never trips over Python falsiness of the result). -/
theorem get_current_ip_ne_empty (attempts :
    List (String × Option HttpResponse)) (cur : String)
    (h : (get_current_ip attempts).1 = some cur) : cur ≠ "" := by
  obtain ⟨lc, rfl, hacc⟩ := get_current_ip_some_accepts attempts cur h
  intro he
  have : lc = [] := congrArg String.data he
  exact accepts_ip_ne_nil hacc this

/-- If every attempted endpoint fails, the lookup loop resolves
nothing. -/
theorem get_current_ip_all_fail (attempts :
    List (String × Option HttpResponse))
    (h : ∀ p ∈ attempts, lookupFails p.2) :
    (get_current_ip attempts).1 = none := by
  induction attempts with
  | nil => simp [get_current_ip]
  | cons hd tl ih =>
    obtain ⟨site, resp⟩ := hd
    have hih : (get_current_ip tl).1 = none :=
      ih (fun p hp => h p (List.mem_cons_of_mem _ hp))
    have hhd : lookupFails resp := h (site, resp) (List.mem_cons_self _ _)
    cases resp with
    | none => simp [get_current_ip, hih]
    | some r =>
      simp only [lookupFails] at hhd
      by_cases hrs : raiseForStatus r = true
      · simp [get_current_ip, hrs, hih]
      · have hfa : findall ip_pattern r.text = [] := by
          rcases hhd with h1 | h1
          · exact absurd h1 hrs
          · exact h1
        simp [get_current_ip, hrs, hfa, hih]

/-- Under the failure condition the updater never reports success. -/
theorem update_dns_not_ok {cfg : Config} {ip : String}
    {resp : Option HttpResponse} (h : updateFailCond resp) :
    (update_dns cfg ip resp).1 ≠ .ok := by
  cases resp with
  | none => simp [update_dns]
  | some r =>
    simp only [updateFailCond] at h
    simp only [update_dns]
    by_cases hrs : raiseForStatus r = true
    · simp [hrs]
    · cases hp : parse_he_response r.text with
      | none => simp [hrs, hp]
      | some tok =>
        have hcond : (r.status = 200 && (tok = "good" || tok = "nochg")) =
            false := by
          rcases h with ⟨hg, hn⟩ | hs
          · rw [hp] at hg hn
            simp only [ne_eq, Option.some.injEq] at hg hn
            simp [hg, hn]
          · simp [hs]
        simp [hrs, hp, hcond]

/-- The updater performs exactly one request, to the fixed endpoint
with the configured credentials and the new address, and never writes
the cache itself. -/
theorem update_dns_events (cfg : Config) (ip : String)
    (resp : Option HttpResponse) :
    (update_dns cfg ip resp).2.filter Event.isUpdateRequest =
      [Event.updateRequest HE_UPDATE_URL cfg.hostname cfg.key ip] ∧
    (update_dns cfg ip resp).2.filter Event.isCacheWrite = [] := by
  cases resp with
  | none =>
    simp [update_dns, List.filter, Event.isUpdateRequest, Event.isCacheWrite]
  | some r =>
    by_cases hrs : raiseForStatus r = true
    · simp [update_dns, hrs, List.filter, Event.isUpdateRequest,
        Event.isCacheWrite]
    · cases hp : parse_he_response r.text with
      | none =>
        simp [update_dns, hrs, hp, List.filter, Event.isUpdateRequest,
          Event.isCacheWrite]
      | some tok =>
        by_cases hc : (r.status = 200 && (tok = "good" || tok = "nochg")) =
            true
        · simp [update_dns, hrs, hp, hc, List.filter, Event.isUpdateRequest,
            Event.isCacheWrite]
        · simp [update_dns, hrs, hp, hc, List.filter, Event.isUpdateRequest,
            Event.isCacheWrite]

/-- C1: in every run whose provider response (if any arrives) fails —
its first token is outside good/nochg or its status is not 200 — the
cache file is left unmodified and `save_cached_ip` is never invoked. -/
theorem cache_unmodified_on_failed_update (cfg : Config) (w : World)
    (h : updateFailCond w.updateResponse) :
    (main_run cfg w).fs = w.fs ∧
    (main_run cfg w).events.filter Event.isCacheWrite = [] := by
  have hnet :=
    get_current_ip_events_clean (IP_LOOKUP_SITES.zip w.lookupResponses)
  simp only [main_run]
  cases hres : (get_current_ip (IP_LOOKUP_SITES.zip w.lookupResponses)).1 with
  | none => simp [hnet.2]
  | some cur =>
    have hne : cur ≠ "" := get_current_ip_ne_empty _ _ hres
    dsimp only
    rw [if_neg hne]
    by_cases hcmp : some cur = get_cached_ip w.fs w.cacheReadOk
    · rw [if_pos hcmp]
      by_cases hcr : (w.fs.content.isSome && !w.cacheReadOk) = true <;>
        simp [hcr, List.filter_append, hnet.2, List.filter,
          Event.isCacheWrite]
    · rw [if_neg hcmp]
      cases hupd : (update_dns cfg cur w.updateResponse).1 with
      | ok => exact absurd hupd (update_dns_not_ok h)
      | fail =>
        by_cases hcr : (w.fs.content.isSome && !w.cacheReadOk) = true <;>
          simp [hcr, List.filter_append, hnet.2, List.filter,
            Event.isCacheWrite, (update_dns_events cfg cur w.updateResponse).2]
      | crash =>
        by_cases hcr : (w.fs.content.isSome && !w.cacheReadOk) = true <;>
          simp [hcr, List.filter_append, hnet.2, List.filter,
            Event.isCacheWrite, (update_dns_events cfg cur w.updateResponse).2]

/-- Witness for C1: a `badauth` response with status 200 leaves a
concrete cache state untouched. -/
theorem cache_unmodified_on_failed_update_witness :
    (main_run ⟨"example.com", "secret"⟩
        ⟨[some ⟨200, "203.0.113.9"⟩, none, none],
         ⟨true, some "198.51.100.7", some 0o600⟩, true,
         some ⟨200, "badauth"⟩, .noFail⟩).fs =
      ⟨true, some "198.51.100.7", some 0o600⟩ ∧
    (main_run ⟨"example.com", "secret"⟩
        ⟨[some ⟨200, "203.0.113.9"⟩, none, none],
         ⟨true, some "198.51.100.7", some 0o600⟩, true,
         some ⟨200, "badauth"⟩, .noFail⟩).events.filter
      Event.isCacheWrite = [] :=
  cache_unmodified_on_failed_update ⟨"example.com", "secret"⟩
    ⟨[some ⟨200, "203.0.113.9"⟩, none, none],
     ⟨true, some "198.51.100.7", some 0o600⟩, true,
     some ⟨200, "badauth"⟩, .noFail⟩
    (by left; constructor <;> decide)

/-- C2: when the run reaches the updater (a fresh address was resolved
and differs from the cache) and the provider answers with status 200
and a body whose first token lower-cases to good or nochg, the update
reports success, the cache file is overwritten with the new address
(its write succeeding), and the run exits with code 0. -/
theorem successful_update_writes_cache (cfg : Config) (w : World)
    (cur : String) (r : HttpResponse)
    (hres : (get_current_ip (IP_LOOKUP_SITES.zip w.lookupResponses)).1 =
      some cur)
    (hcmp : some cur ≠ get_cached_ip w.fs w.cacheReadOk)
    (hresp : w.updateResponse = some r)
    (hstatus : r.status = 200)
    (htok : parse_he_response r.text = some "good" ∨
      parse_he_response r.text = some "nochg")
    (hwr : w.writeFailure = .noFail) :
    (update_dns cfg cur w.updateResponse).1 = .ok ∧
    (main_run cfg w).outcome = .exit 0 ∧
    (main_run cfg w).fs.content = some cur ∧
    Event.cacheWrite cur ∈ (main_run cfg w).events := by
  have hne : cur ≠ "" := get_current_ip_ne_empty _ _ hres
  have hok : (update_dns cfg cur w.updateResponse).1 = .ok := by
    rw [hresp]
    simp only [update_dns]
    have hrs : raiseForStatus r = false := by
      simp [raiseForStatus, hstatus]
    rcases htok with ht | ht <;> simp [hrs, ht, hstatus]
  refine ⟨hok, ?_⟩
  simp only [main_run]
  rw [hres]
  dsimp only
  rw [if_neg hne, if_neg hcmp, hwr]
  cases hupd : (update_dns cfg cur w.updateResponse).1 with
  | ok => simp [save_cached_ip]
  | fail => rw [hupd] at hok; exact absurd hok (by simp)
  | crash => rw [hupd] at hok; exact absurd hok (by simp)

/-- Witness for C2: a concrete first-run world where the provider
says `good`. -/
theorem successful_update_writes_cache_witness :
    (update_dns ⟨"example.com", "secret"⟩ "203.0.113.9"
        (some ⟨200, "good 203.0.113.9"⟩)).1 = .ok ∧
    (main_run ⟨"example.com", "secret"⟩
        ⟨[some ⟨200, "203.0.113.9"⟩, none, none],
         ⟨false, none, none⟩, true,
         some ⟨200, "good 203.0.113.9"⟩, .noFail⟩).outcome = .exit 0 ∧
    (main_run ⟨"example.com", "secret"⟩
        ⟨[some ⟨200, "203.0.113.9"⟩, none, none],
         ⟨false, none, none⟩, true,
         some ⟨200, "good 203.0.113.9"⟩, .noFail⟩).fs.content =
      some "203.0.113.9" ∧
    Event.cacheWrite "203.0.113.9" ∈
      (main_run ⟨"example.com", "secret"⟩
        ⟨[some ⟨200, "203.0.113.9"⟩, none, none],
         ⟨false, none, none⟩, true,
         some ⟨200, "good 203.0.113.9"⟩, .noFail⟩).events :=
  successful_update_writes_cache ⟨"example.com", "secret"⟩
    ⟨[some ⟨200, "203.0.113.9"⟩, none, none],
     ⟨false, none, none⟩, true,
     some ⟨200, "good 203.0.113.9"⟩, .noFail⟩
    "203.0.113.9" ⟨200, "good 203.0.113.9"⟩
    (by decide) (by decide) rfl rfl (Or.inl (by decide)) rfl

/-- C3: when the cached address equals the freshly resolved one, no
request is made to the provider endpoint and the run exits with
code 0. -/
theorem unchanged_ip_skips_update (cfg : Config) (w : World) (cur : String)
    (hres : (get_current_ip (IP_LOOKUP_SITES.zip w.lookupResponses)).1 =
      some cur)
    (hcached : get_cached_ip w.fs w.cacheReadOk = some cur) :
    (main_run cfg w).events.filter Event.isUpdateRequest = [] ∧
    (main_run cfg w).outcome = .exit 0 := by
  have hne : cur ≠ "" := get_current_ip_ne_empty _ _ hres
  have hnet :=
    get_current_ip_events_clean (IP_LOOKUP_SITES.zip w.lookupResponses)
  simp only [main_run]
  rw [hres]
  dsimp only
  rw [if_neg hne, if_pos (by rw [hcached])]
  by_cases hcr : (w.fs.content.isSome && !w.cacheReadOk) = true <;>
    simp [hcr, List.filter_append, hnet.1, List.filter, Event.isUpdateRequest]

/-- Witness for C3: cache and lookup both give `203.0.113.9`. -/
theorem unchanged_ip_skips_update_witness :
    (main_run ⟨"example.com", "secret"⟩
        ⟨[some ⟨200, "203.0.113.9"⟩, none, none],
         ⟨true, some "203.0.113.9", some 0o600⟩, true, none,
         .noFail⟩).events.filter Event.isUpdateRequest = [] ∧
    (main_run ⟨"example.com", "secret"⟩
        ⟨[some ⟨200, "203.0.113.9"⟩, none, none],
         ⟨true, some "203.0.113.9", some 0o600⟩, true, none,
         .noFail⟩).outcome = .exit 0 :=
  unchanged_ip_skips_update ⟨"example.com", "secret"⟩
    ⟨[some ⟨200, "203.0.113.9"⟩, none, none],
     ⟨true, some "203.0.113.9", some 0o600⟩, true, none, .noFail⟩
    "203.0.113.9" (by decide) (by decide)

/-- C4: when the cache does not hold the freshly resolved address
(differing value or no cached value at all), the run performs exactly
one request to the provider endpoint, and that request carries the
fixed endpoint URL, the configured hostname, the key as password, and
the new address as `myip`. -/
theorem changed_ip_posts_once (cfg : Config) (w : World) (cur : String)
    (hres : (get_current_ip (IP_LOOKUP_SITES.zip w.lookupResponses)).1 =
      some cur)
    (hcached : get_cached_ip w.fs w.cacheReadOk ≠ some cur) :
    (main_run cfg w).events.filter Event.isUpdateRequest =
      [Event.updateRequest HE_UPDATE_URL cfg.hostname cfg.key cur] := by
  have hne : cur ≠ "" := get_current_ip_ne_empty _ _ hres
  have hnet :=
    get_current_ip_events_clean (IP_LOOKUP_SITES.zip w.lookupResponses)
  have hupde := update_dns_events cfg cur w.updateResponse
  simp only [main_run]
  rw [hres]
  dsimp only
  rw [if_neg hne, if_neg (fun he => hcached he.symm)]
  cases hupd : (update_dns cfg cur w.updateResponse).1 with
  | ok =>
    by_cases hcr : (w.fs.content.isSome && !w.cacheReadOk) = true <;>
      by_cases hwarn : (save_cached_ip w.fs w.writeFailure cur).2 = true <;>
      simp [hcr, hwarn, List.filter_append, hnet.1, hupde.1, List.filter,
        Event.isUpdateRequest]
  | fail =>
    by_cases hcr : (w.fs.content.isSome && !w.cacheReadOk) = true <;>
      simp [hcr, List.filter_append, hnet.1, hupde.1, List.filter,
        Event.isUpdateRequest]
  | crash =>
    by_cases hcr : (w.fs.content.isSome && !w.cacheReadOk) = true <;>
      simp [hcr, List.filter_append, hnet.1, hupde.1, List.filter,
        Event.isUpdateRequest]

/-- Witness for C4: empty cache, fresh `203.0.113.9`, transport error
on the update — still exactly one POST with the right parameters. -/
theorem changed_ip_posts_once_witness :
    (main_run ⟨"example.com", "secret"⟩
        ⟨[some ⟨200, "203.0.113.9"⟩, none, none],
         ⟨false, none, none⟩, true, none, .noFail⟩).events.filter
      Event.isUpdateRequest =
    [Event.updateRequest HE_UPDATE_URL "example.com" "secret"
      "203.0.113.9"] :=
  changed_ip_posts_once ⟨"example.com", "secret"⟩
    ⟨[some ⟨200, "203.0.113.9"⟩, none, none],
     ⟨false, none, none⟩, true, none, .noFail⟩
    "203.0.113.9" (by decide) (by decide)

/-- C5: when every lookup endpoint fails (transport error, error
status, or no IPv4 literal in the body), the run exits with code 1 and
never contacts the provider endpoint. -/
theorem all_lookups_failed_no_update (cfg : Config) (w : World)
    (h : ∀ resp ∈ w.lookupResponses, lookupFails resp) :
    (main_run cfg w).outcome = .exit 1 ∧
    (main_run cfg w).events.filter Event.isUpdateRequest = [] := by
  have hnet :=
    get_current_ip_events_clean (IP_LOOKUP_SITES.zip w.lookupResponses)
  have hres : (get_current_ip (IP_LOOKUP_SITES.zip w.lookupResponses)).1 =
      none := by
    refine get_current_ip_all_fail _ (fun p hp => ?_)
    exact h p.2 (List.of_mem_zip hp).2
  simp only [main_run]
  rw [hres]
  exact ⟨rfl, hnet.1⟩

/-- Witness for C5: one endpoint errors, one returns a 500, one
returns a body with no IPv4 literal. -/
theorem all_lookups_failed_no_update_witness :
    (main_run ⟨"example.com", "secret"⟩
        ⟨[none, some ⟨500, "203.0.113.9"⟩, some ⟨200, "no address here"⟩],
         ⟨false, none, none⟩, true, none, .noFail⟩).outcome = .exit 1 ∧
    (main_run ⟨"example.com", "secret"⟩
        ⟨[none, some ⟨500, "203.0.113.9"⟩, some ⟨200, "no address here"⟩],
         ⟨false, none, none⟩, true, none, .noFail⟩).events.filter
      Event.isUpdateRequest = [] :=
  all_lookups_failed_no_update ⟨"example.com", "secret"⟩
    ⟨[none, some ⟨500, "203.0.113.9"⟩, some ⟨200, "no address here"⟩],
     ⟨false, none, none⟩, true, none, .noFail⟩
    (by
      intro resp hresp
      simp only [List.mem_cons, List.not_mem_nil, or_false] at hresp
      rcases hresp with rfl | rfl | rfl
      · exact trivial
      · left; decide
      · right; decide)

/-- C7: with either environment variable unset or left at its
placeholder, the script exits with code 1, emits the configuration
diagnostic on stderr, performs no network activity, and leaves the
cache file alone. -/
theorem missing_config_refuses (envH envK : Option String) (w : World)
    (h : envH = none ∨ envH = some HOSTNAME_PLACEHOLDER ∨ envK = none ∨
      envK = some KEY_PLACEHOLDER) :
    (script_run envH envK w).outcome = .exit 1 ∧
    (script_run envH envK w).events = [Event.errConfig] ∧
    Event.errConfig.isStderr = true ∧
    (script_run envH envK w).events.filter Event.isNetwork = [] ∧
    (script_run envH envK w).fs = w.fs := by
  have hcond : (startsWithLt (envH.getD HOSTNAME_PLACEHOLDER) ||
      startsWithLt (envK.getD KEY_PLACEHOLDER)) = true := by
    rcases h with rfl | rfl | rfl | rfl
    · simp [Option.getD]
      left
      decide
    · simp [Option.getD]
      left
      decide
    · simp [Option.getD]
      right
      decide
    · simp [Option.getD]
      right
      decide
  simp only [script_run]
  rw [if_pos hcond]
  exact ⟨rfl, rfl, rfl, rfl, rfl⟩

/-- Witness for C7: both variables unset. -/
theorem missing_config_refuses_witness :
    (script_run none none
        ⟨[], ⟨false, none, none⟩, true, none, .noFail⟩).outcome = .exit 1 ∧
    (script_run none none
        ⟨[], ⟨false, none, none⟩, true, none, .noFail⟩).events =
      [Event.errConfig] ∧
    Event.errConfig.isStderr = true ∧
    (script_run none none
        ⟨[], ⟨false, none, none⟩, true, none, .noFail⟩).events.filter
      Event.isNetwork = [] ∧
    (script_run none none
        ⟨[], ⟨false, none, none⟩, true, none, .noFail⟩).fs =
      ⟨false, none, none⟩ :=
  missing_config_refuses none none
    ⟨[], ⟨false, none, none⟩, true, none, .noFail⟩ (Or.inl rfl)

/-- Counterexample to C8's atomicity conjunct: a write that fails
after three characters leaves the cache file holding `5.6`, which is
neither the previous value `1.2.3.4` nor the new value `5.6.7.8` — the
file neither retains its previous content on failure nor avoids
partially-written values. -/
theorem save_not_atomic_cex :
    (save_cached_ip ⟨true, some "1.2.3.4", some 0o600⟩ (.failMidWrite 3)
        "5.6.7.8").1.content = some "5.6" ∧
    (save_cached_ip ⟨true, some "1.2.3.4", some 0o600⟩ (.failMidWrite 3)
        "5.6.7.8").1.content ≠ some "1.2.3.4" ∧
    (save_cached_ip ⟨true, some "1.2.3.4", some 0o600⟩ (.failMidWrite 3)
        "5.6.7.8").1.content ≠ some "5.6.7.8" ∧
    (save_cached_ip ⟨true, some "1.2.3.4", some 0o600⟩ (.failMidWrite 3)
        "5.6.7.8").2 = true := by
  refine ⟨rfl, ?_, ?_, rfl⟩ <;> decide

/-- C8 as amended: `save_cached_ip` ensures the parent directory exists
(except when `mkdir` itself fails), on full success replaces the
content with `ip` and restricts the mode to `0o600`, logs a warning on
any failure instead of raising, and leaves the previous content in
place when the failure happens before the truncating open — but a
failure during the write itself may leave a partial value. -/
theorem save_cached_ip_behavior (fs : CacheFS) (f : WriteFailure)
    (ip : String) :
    (f ≠ .failMkdir → (save_cached_ip fs f ip).1.parentExists = true) ∧
    (f = .noFail → (save_cached_ip fs f ip).1 = ⟨true, some ip, some 0o600⟩ ∧
      (save_cached_ip fs f ip).2 = false) ∧
    (f ≠ .noFail → (save_cached_ip fs f ip).2 = true) ∧
    ((f = .failMkdir ∨ f = .failOpen) →
      (save_cached_ip fs f ip).1.content = fs.content) ∧
    (∀ k, f = .failMidWrite k →
      (save_cached_ip fs f ip).1.content =
        some (String.mk (ip.toList.take k))) := by
  cases f <;> simp [save_cached_ip]

/-- Witness for C8 (amended): a fully successful write of a concrete
address. -/
theorem save_cached_ip_behavior_witness :
    (save_cached_ip ⟨false, none, none⟩ .noFail "203.0.113.9").1 =
      ⟨true, some "203.0.113.9", some 0o600⟩ ∧
    (save_cached_ip ⟨false, none, none⟩ .noFail "203.0.113.9").2 = false :=
  (save_cached_ip_behavior ⟨false, none, none⟩ .noFail "203.0.113.9").2.1 rfl

/-- C9: the cache store round-trips: saving an address with no
surrounding whitespace and reading it back returns exactly that
address. -/
theorem cache_roundtrip (fs : CacheFS) (ip : String)
    (h : pyStrip ip = ip) :
    get_cached_ip (save_cached_ip fs .noFail ip).1 true = some ip := by
  simp only [save_cached_ip, get_cached_ip]
  rw [if_pos trivial, h]

/-- Witness for C9 at `203.0.113.9`. -/
theorem cache_roundtrip_witness :
    get_cached_ip
      (save_cached_ip ⟨false, none, none⟩ .noFail "203.0.113.9").1 true =
    some "203.0.113.9" :=
  cache_roundtrip ⟨false, none, none⟩ "203.0.113.9" (by decide)

/-- Counterexample to C10 as stated: on a body that is nonempty but
all whitespace, `parse_he_response` does not return the empty token —
`split()[0]` raises an uncaught `IndexError` (embedded as `none`). -/
theorem parse_whitespace_cex :
    parse_he_response " " ≠ some "" ∧ parse_he_response " " = none := by
  refine ⟨?_, rfl⟩
  decide

/-- C10 as amended: on an empty body `parse_he_response` returns the
empty token, which is outside good/nochg, so the update is treated as
failed even with status 200; on a nonempty all-whitespace body the
parser instead raises and the update call crashes (so it still never
reports success). -/
theorem empty_body_update_fails (cfg : Config) (ip : String) :
    parse_he_response "" = some "" ∧
    (update_dns cfg ip (some ⟨200, ""⟩)).1 = .fail ∧
    (update_dns cfg ip (some ⟨200, " "⟩)).1 = .crash :=
  ⟨rfl, rfl, rfl⟩
